import Mathlib

/-! Verification of the canrun_rs constraint-solving core against its
specification.  The Rust sources are shallowly embedded: substitutions become
association lists, reference-counted payloads become plain values, and the
watch / fork closures stored inside `State` are defunctionalized as type
parameters `W` / `F` whose interpretation functions are passed explicitly to
the operations that invoke them. -/

namespace Canrun

set_option linter.unusedVariables false

/-- Logic value `Val<T>` (core/src/value.rs): either an unresolved variable,
identified by its global id, or a resolved (shared, immutable) payload. -/
inductive Val (T : Type) where
  | var : Nat → Val T
  | resolved : T → Val T
deriving DecidableEq

/-- `Val::resolved` (core/src/value.rs lines 16-21): `Ok` with the payload for
a `Resolved` value, `Err` with the variable for a `Var`.  (Named
`getResolved` here because `resolved` is taken by the constructor.) -/
def Val.getResolved {T : Type} : Val T → Except Nat T
  | .resolved x => .ok x
  | .var v => .error v

/-- Modelled from the spec: the multi-key multi-value watch index `MKMVMap`
(core/src/util/multikeymultivaluemap.rs is not under src/).  Spec section 4.B:
`add(ids, w)` allocates a fresh monotonic watch-id and records the watch under
every id in `ids`; `extract(id)` returns every watch whose id-set contained
`id` and removes each returned watch from all the ids it was indexed under.
The backing pair of maps is represented by the single entry list
`(watch-id, id-set, watch)`; the `id -> watch-id` index is its derived view,
which preserves the observable add / extract behavior. -/
structure MKMVMap (V : Type) where
  nextId : Nat
  entries : List (Nat × List Nat × V)

/-- `MKMVMap::new`: the empty index. -/
def MKMVMap.new {V : Type} : MKMVMap V := ⟨0, []⟩

/-- `MKMVMap::add`: record a watch under every one of its ids, with a fresh
monotonically increasing watch-id. -/
def MKMVMap.add {V : Type} (m : MKMVMap V) (ids : List Nat) (v : V) : MKMVMap V :=
  ⟨m.nextId + 1, m.entries ++ [(m.nextId, ids, v)]⟩

/-- `MKMVMap::extract`: remove and return every watch that mentions `k`,
unlinking each from all of its other keys; `none` when no watch mentions
`k`. -/
def MKMVMap.extract {V : Type} (m : MKMVMap V) (k : Nat) :
    Option (List V) × MKMVMap V :=
  let hits := m.entries.filter (fun e => e.2.1.contains k)
  if hits.isEmpty then (none, m)
  else
    (some (hits.map (fun e => e.2.2)),
      ⟨m.nextId, m.entries.filter (fun e => !e.2.1.contains k)⟩)

/-- `Watch` outcome of attempting a suspended computation (shape taken from
its uses in core/src/state.rs and spec section 4.G; core/src/state/watch.rs is
not under src/): `Done` carries a final outcome, `Waiting` carries the current
state plus the list of variable ids to wake on. -/
inductive Watch (σ : Type) where
  | done : Option σ → Watch σ
  | waiting : σ → List Nat → Watch σ

/-- `Watch::watch(state, var)` — modelled from the spec: suspend, waiting on a
single variable. -/
def Watch.watch {σ : Type} (state : σ) (v : Nat) : Watch σ := .waiting state [v]

/-- `Watch::and(var)` — modelled from the spec: also wait on one further
variable. -/
def Watch.and {σ : Type} (w : Watch σ) (v : Nat) : Watch σ :=
  match w with
  | .done st => .done st
  | .waiting st vars => .waiting st (vars ++ [v])

/-- The core `State` (core/src/state.rs lines 64-69) instantiated at the
two-type example domain (i32 and Vec<Val<i32>>): one substitution map per
admitted type, the shared watch index, and the FIFO fork queue.  `W` and `F`
are the defunctionalized watch and fork closure types. -/
structure State (W F : Type) where
  substI : List (Nat × Val Int)
  substV : List (Nat × Val (List (Val Int)))
  watches : MKMVMap W
  forks : List F

/-- `State::new` (core/src/state.rs lines 72-78): empty domain, no watches,
no forks. -/
def State.new {W F : Type} : State W F := ⟨[], [], MKMVMap.new, []⟩

/-- `State::resolve_val` (core/src/state.rs lines 95-103) at T = i32: a
single-step chase — a `Var` is looked up once in the i32 substitution
(falling back to itself when unbound), anything else resolves to itself. -/
def State.resolve_val {W F : Type} (s : State W F) (val : Val Int) : Val Int :=
  match val with
  | .var v => (s.substI.lookup v).getD val
  | value => value

/-- `State::resolve_val` at T = Vec<Val<i32>>: the same single-step chase in
the sequence substitution. -/
def State.resolve_val_vec {W F : Type} (s : State W F)
    (val : Val (List (Val Int))) : Val (List (Val Int)) :=
  match val with
  | .var v => (s.substV.lookup v).getD val
  | value => value

/-- `State::get` (core/src/state.rs lines 105-113) at T = i32: look the
variable up once; `Err(var)` when unbound, otherwise `Val::resolved` of the
stored value (so `Err(next-var)` when bound to another variable). -/
def State.get {W F : Type} (s : State W F) (v : Nat) : Except Nat Int :=
  match s.substI.lookup v with
  | some val => val.getResolved
  | none => .error v

/-- `Unified` (domain.rs lines 6-10): verdict of a leaf unifier — `Success`,
`Failed`, or a `Conditional` continuation on the state. -/
inductive Unified (W F : Type) where
  | success : Unified W F
  | failed : Unified W F
  | conditional : (State W F → Option (State W F)) → Unified W F

/-- `UnifyIn for i32` (domain.rs lines 17-25): `Success` iff the two payloads
are equal, `Failed` otherwise. -/
def i32_unify_with {W F : Type} (a b : Int) : Unified W F :=
  if a = b then .success else .failed

/-- The stub `UnifyIn for Vec<Val<T>>` (domain.rs lines 27-36): reports
`Success` whenever the lengths match, without recursing into children
(`Failed` when they differ). -/
def vec_unify_with {W F : Type} (a b : List (Val Int)) : Unified W F :=
  if a.length = b.length then .success else .failed

/-- Modelled from the spec (section 4.E): how a leaf unifier verdict is
adopted by the state — `Success` keeps the state unchanged, `Failed` aborts
the branch, `Conditional` runs the continuation. -/
def State.applyUnified {W F : Type} (s : State W F) :
    Unified W F → Option (State W F)
  | .success => some s
  | .failed => none
  | .conditional k => k s

/-- `State::watch` (core/src/state.rs lines 150-158): run the watch function
once; adopt a `Done` outcome as is, or file a `Waiting` watch in the index
under its declared variable ids.  `run` interprets the defunctionalized watch
`func`. -/
def State.watch {W F : Type} (run : W → State W F → Watch (State W F))
    (s : State W F) (func : W) : Option (State W F) :=
  match run func s with
  | .done state => state
  | .waiting state vars =>
    some {state with watches := state.watches.add vars func}

/-- The variable-binding branch of `State::unify` (core/src/state.rs lines
129-146): insert `key -> value` into the i32 substitution, then extract every
watch mentioning `key` and re-run each exactly once via `State.watch`,
folding failures (`try_fold`). -/
def State.bindVar {W F : Type} (run : W → State W F → Watch (State W F))
    (s : State W F) (key : Nat) (value : Val Int) : Option (State W F) :=
  let s1 : State W F := {s with substI := (key, value) :: s.substI}
  match s1.watches.extract key with
  | (some ws, m) => ws.foldlM (State.watch run) {s1 with watches := m}
  | (none, _) => some s1

/-- `State::unify` (core/src/state.rs lines 115-148) at T = i32: one-step
resolve both sides, then case split — resolved / resolved goes to the leaf
unifier, equal variables succeed unchanged, and a variable on either side is
bound to the other side (the left variable when both are variables), waking
the watches on the newly bound id. -/
def State.unify {W F : Type} (run : W → State W F → Watch (State W F))
    (s : State W F) (a b : Val Int) : Option (State W F) :=
  match s.resolve_val a, s.resolve_val b with
  | .resolved x, .resolved y => s.applyUnified (i32_unify_with x y)
  | .var v, .var w => if v = w then some s else s.bindVar run v (.var w)
  | .var v, .resolved y => s.bindVar run v (.resolved y)
  | .resolved x, .var w => s.bindVar run w (.resolved x)

/-- `unify_resolved` for Vec<Val<T>> (core/src/unify/vec.rs lines 11-23):
`None` on a length mismatch, otherwise fold `State::unify` left-to-right over
the paired children (`try_fold`), so the first child failure fails the whole
sequence. -/
def unify_resolved {W F : Type} (run : W → State W F → Watch (State W F))
    (state : State W F) (a b : List (Val Int)) : Option (State W F) :=
  if a.length = b.length then
    (a.zip b).foldlM (fun s p => State.unify run s p.1 p.2) state
  else none

/-- `State::fork` (core/src/state.rs lines 160-163): append the fork to the
back of the queue (`push_back`); the fork is never executed here. -/
def State.fork {W F : Type} (s : State W F) (func : F) : Option (State W F) :=
  some {s with forks := s.forks ++ [func]}

/-- `State::iter_forks` (core/src/state.rs lines 87-93), with explicit fuel in
place of Rust's lazy iterator: pop the head fork (FIFO), run it on the state
carrying the remaining queue, and flat-map the recursion over the produced
states in their order; a state with an empty queue yields exactly itself.
`none` means the fuel ran out before the enumeration finished. -/
def iter_forks {W F : Type} (runF : F → State W F → List (State W F)) :
    Nat → State W F → Option (List (State W F))
  | 0, _ => none
  | n + 1, s =>
    match s.forks with
    | [] => some [s]
    | f :: rest =>
      ((runF f {s with forks := rest}).mapM (iter_forks runF n)).map List.flatten

/-- Outcome of recursive resolution, fuel made explicit: a ground value, a
still-unbound variable, or fuel exhaustion (the unfueled recursion would not
have terminated within that depth). -/
inductive ResolveRes where
  | ground : Int → ResolveRes
  | unbound : Nat → ResolveRes
  | outOfFuel : ResolveRes
deriving DecidableEq

/-- Modelled from the spec (sections 4.H and 9): recursive resolution (reify)
for the i32 domain — chase through variables until a resolved value or an
unbound variable is reached.  The engine performs no cycle detection, so the
chase is bounded here only by the explicit fuel. -/
def resolveDeep {W F : Type} : Nat → State W F → Val Int → ResolveRes
  | 0, _, _ => .outOfFuel
  | _ + 1, _, .resolved x => .ground x
  | n + 1, s, .var v =>
    match s.substI.lookup v with
    | none => .unbound v
    | some w => resolveDeep n s w

/-- The goal tree `Goal` (src/take2/core/goal.rs lines 11-19), over the i32
domain.  The `Thunk` variant holds an arbitrary host closure and is omitted:
the claims quantify over this defunctionalized goal syntax. -/
inductive GoalG where
  | unify : Val Int → Val Int → GoalG
  | both : GoalG → GoalG → GoalG
  | all : List GoalG → GoalG
  | either : GoalG → GoalG → GoalG
  | any : List GoalG → GoalG

/-- The defunctionalized fork closures that `Goal::apply` enqueues
(src/take2/core/goal.rs lines 27-40): the `Either` fork and the `Any` fork. -/
inductive ForkF where
  | eitherF : GoalG → GoalG → ForkF
  | anyF : List GoalG → ForkF

/-- Watch interpretation for a state with no representable watches: goal
application for the plain goal algebra never consults it. -/
def emptyRun (F : Type) : Empty → State Empty F → Watch (State Empty F) :=
  fun e _ => e.elim

mutual

/-- `Goal::apply` (src/take2/core/goal.rs lines 22-43): `Unify` forwards to
state-level unification, `Both` sequences, `All` is a left `try_fold`, and
`Either` / `Any` defer a fork without attempting any branch. -/
def GoalG.apply : GoalG → State Empty ForkF → Option (State Empty ForkF)
  | .unify a b, s => State.unify (emptyRun ForkF) s a b
  | .both a b, s => (a.apply s).bind (fun s1 => b.apply s1)
  | .all gs, s => applyAll gs s
  | .either a b, s => s.fork (.eitherF a b)
  | .any gs, s => s.fork (.anyF gs)

/-- The left `try_fold` of `Goal::All` (src/take2/core/goal.rs line 26),
unrolled structurally. -/
def applyAll : List GoalG → State Empty ForkF → Option (State Empty ForkF)
  | [], s => some s
  | g :: gs, s => (g.apply s).bind (applyAll gs)

end

/-- The bodies of the fork closures built by `Goal::apply`
(src/take2/core/goal.rs lines 27-40): `Either` chains the two branches
applied to the same parent state; `Any` flat-maps application over the goals
paired with clones of the parent state, in declared order. -/
def runFork (f : ForkF) (s : State Empty ForkF) : List (State Empty ForkF) :=
  match f with
  | .eitherF a b => (a.apply s).toList ++ (b.apply s).toList
  | .anyF gs => gs.flatMap (fun g => (g.apply s).toList)

/-- Modelled from the spec (section 4.H): reify one out-variable in a
terminal state — recursively resolve it and keep the result only when it is
ground. -/
def reify (s : State Empty ForkF) (v : Nat) : Option Int :=
  match resolveDeep (s.substI.length + 1) s (.var v) with
  | .ground n => some n
  | _ => none

/-- Modelled from the spec (section 4.H; core/src/query.rs is not under
src/): `Query(goal, v)` applies the goal to a fresh state (a failed
application contributes zero answers), drains the pending forks, and reifies
`v` in every terminal state, suppressing states where `v` is not ground.
`none` propagates fuel exhaustion of the drain. -/
def query (fuel : Nat) (g : GoalG) (v : Nat) : Option (List Int) :=
  match g.apply State.new with
  | none => some []
  | some s =>
    (iter_forks runFork fuel s).map (fun states => states.filterMap (fun st => reify st v))

/-- Modelled from the spec (sections 4.G and 4.I; the constraint framework
`canrun::state::constraints` used by collections/src/lvec/member.rs is not
under src/): `resolve_1` resolves a value once and either returns the
resolved payload or reports the variable to wait on (`VarWatch`). -/
def resolve_1 {W F : Type} (val : Val (List (Val Int))) (s : State W F) :
    Except (List Nat) (List (Val Int)) :=
  match (s.resolve_val_vec val).getResolved with
  | .ok xs => .ok xs
  | .error v => .error [v]

/-- `Member::attempt` (collections/src/lvec/member.rs lines 69-78): resolve
the collection (waiting on it while it is a variable), then build one
`unify(element, item)` goal per element in declared order and resolve to
applying `Goal::any` of them.  The returned `ResolveFn` closure is
defunctionalized as the goal it would apply. -/
def memberAttempt {W F : Type} (item : Val Int)
    (collection : Val (List (Val Int))) (s : State W F) :
    Except (List Nat) GoalG :=
  match resolve_1 collection s with
  | .error w => .error w
  | .ok xs => .ok (.any (xs.map (fun a => .unify a item)))

/-- `Map1` (core/src/goal/project/map_1.rs lines 54-59), instantiated at
A = B = i32: the two operand values and the two derivation functions. -/
structure Map1 where
  a : Val Int
  b : Val Int
  a_to_b : Int → Int
  b_to_a : Int → Int

/-- `Map1::attempt` (core/src/goal/project/map_1.rs lines 72-86): one-step
resolve both operands; if `a` is resolved, unify `a_to_b(a)` with (resolved)
`b`; otherwise if `b` is resolved, unify `b_to_a(b)` with the variable `a`;
when both are still variables, wait on both.  `run` interprets the
defunctionalized watches consulted by the nested unification. -/
def Map1.attempt {F : Type}
    (run : Map1 → State Map1 F → Watch (State Map1 F)) (m : Map1)
    (state : State Map1 F) : Watch (State Map1 F) :=
  match state.resolve_val m.a, state.resolve_val m.b with
  | .resolved a, b => .done (State.unify run state (.resolved (m.a_to_b a)) b)
  | .var a, .resolved b =>
    .done (State.unify run state (.resolved (m.b_to_a b)) (.var a))
  | .var a, .var b => (Watch.watch state a).and b

/-- `Can<T>` of the first-generation engine, at T = i32 (shape taken from its
uses in src/old/state.rs and src/goal/map.rs; src/can itself is not under
src/): variable, ground value, pair, sequence, or nil. -/
inductive Can where
  | var : Nat → Can
  | val : Int → Can
  | pair : Can → Can → Can
  | vec : List Can → Can
  | nil : Can

/-- `Mapping` (src/goal/map.rs lines 5-11) at T = i32: two operands and the
two derivation functions. -/
structure Mapping where
  a : Can
  b : Can
  a_to_b : Int → Int
  b_to_a : Int → Int

/-- `Mapping::evaluate_a` (src/goal/map.rs lines 44-47): apply `a_to_b`. -/
def Mapping.evaluate_a (m : Mapping) (a : Int) : Int := m.a_to_b a

/-- `Mapping::evaluate_b` (src/goal/map.rs lines 49-52): apply `b_to_a`. -/
def Mapping.evaluate_b (m : Mapping) (b : Int) : Int := m.b_to_a b

/-- The first-generation `State` as used by src/goal/map.rs, reduced to its
`values` substitution.  That `State` version also carries `constraints` and
`mappings` stores whose implementations (src/constraint, src/util) are not
under src/; the `Mapping::run` branches that need them are abstracted by the
`checkAdd` parameter below. -/
structure MapState where
  values : List (Nat × Can)

/-- `Mapping::run` (src/goal/map.rs lines 25-42): when either operand is a
variable, register the mapping under the variable(s) and re-check
(`add_mappings` + `check_mappings`, abstracted as `checkAdd` because the
mappings store is not under src/); when both operands are ground values,
succeed iff `evaluate_a(a) == b` (`state.to_iter()` versus an empty
iterator); any other combination yields the empty iterator. -/
def Mapping.run (checkAdd : List Nat → Mapping → MapState → Nat → List MapState)
    (m : Mapping) (state : MapState) : List MapState :=
  match m.a, m.b with
  | .var a, .var b => checkAdd [a, b] m state a
  | .var a, _ => checkAdd [a] m state a
  | _, .var b => checkAdd [b] m state b
  | .val a, .val b => if m.evaluate_a a = b then [state] else []
  | _, _ => []

/-- The entries of the watch index that mention `v` — what
`MKMVMap::extract(v)` returns. -/
def extractedEntries {W F : Type} (s : State W F) (v : Nat) :
    List (Nat × List Nat × W) :=
  s.watches.entries.filter (fun e => e.2.1.contains v)

/-- The entries of the watch index that survive `MKMVMap::extract(v)`. -/
def remainingEntries {W F : Type} (s : State W F) (v : Nat) :
    List (Nat × List Nat × W) :=
  s.watches.entries.filter (fun e => !e.2.1.contains v)

/-- The state right after the binding branch of `State::unify` inserted
`v -> Resolved x` and extracted the watches mentioning `v`, before any of
them is re-run. -/
def afterBind {W F : Type} (s : State W F) (v : Nat) (x : Int) : State W F :=
  ⟨(v, Val.resolved x) :: s.substI, s.substV,
    ⟨s.watches.nextId, remainingEntries s v⟩, s.forks⟩

/-- Trivial interpretation of `Unit` watch codes: always conclude success
with the state unchanged. -/
def unitRun : Unit → State Unit Unit → Watch (State Unit Unit) :=
  fun _ s => .done (some s)

/-- A state whose i32 substitution holds the chain `1 -> Var 2 -> 1`: variable
1 is bound to variable 2, which is itself bound to the resolved value 1. -/
def chainState : State Unit Unit :=
  ⟨[(1, .var 2), (2, .resolved 1)], [], MKMVMap.new, []⟩

/-- A state with an empty substitution and two filed watches: watch-id 0
under the ids 5 and 7, watch-id 1 under the id 8. -/
def watchState : State Unit Unit :=
  ⟨[], [], ⟨2, [(0, [5, 7], ()), (1, [8], ())]⟩, []⟩

/-- A state binding variable 1 to variable 2 and variable 2 to the resolved
value 5. -/
def getState : State Unit Unit :=
  ⟨[(1, .var 2), (2, .resolved 5)], [], MKMVMap.new, []⟩

/-- A fork interpretation for `Unit` fork codes: yield the invoking state. -/
def constRunF : Unit → State Unit Unit → List (State Unit Unit) :=
  fun _ s => [s]

/-- An otherwise empty state with a single pending `Unit` fork. -/
def forkState : State Unit Unit := ⟨[], [], MKMVMap.new, [()]⟩

/-- Trivial interpretation of `Map1` watch codes used to instantiate the
nested unification of `Map1::attempt`. -/
def map1Run : Map1 → State Map1 Unit → Watch (State Map1 Unit) :=
  fun _ s => .done (some s)

/-- A concrete `map_1(x, y, |a| a + 1, |b| b - 1)` projection over the
variables 0 and 1. -/
def map1Ex : Map1 := ⟨.var 0, .var 1, fun t => t + 1, fun t => t - 1⟩

/-- The state produced by unifying `Var 1` with `Var 2`, `Var 2` with
`Var 3`, then `Var 3` with `Var 1`: its substitution closes the cycle
`2 -> Var 3 -> Var 2` because the third unification resolves `Var 1` only one
step, to `Var 2`, and binds 3 to it. -/
def cycleState : State Empty Unit :=
  ⟨[(3, .var 2), (2, .var 3), (1, .var 2)], [], MKMVMap.new, []⟩

/-- The terminal state of one `member` branch: out-variable 0 bound to the
resolved element `a`. -/
def boundState (a : Int) : State Empty ForkF :=
  ⟨[(0, .resolved a)], [], MKMVMap.new, []⟩

/-! ## Theorems -/

/-- C9: for every state and variable `v`, `State::get(v)` returns `Err(v)`
when `v` has no binding, returns `Err(w)` — the next variable in the chain,
not `v` and not a deeper resolution — when `v` is bound to the variable `w`,
and returns `Ok` with the payload exactly when `v` maps directly to a
`Resolved` value. -/
theorem C9_state_get (W F : Type) (s : State W F) (v : Nat) :
    (s.substI.lookup v = none → s.get v = .error v) ∧
    (∀ w, s.substI.lookup v = some (.var w) → s.get v = .error w) ∧
    (∀ x, s.substI.lookup v = some (.resolved x) → s.get v = .ok x) ∧
    (∀ x, s.get v = .ok x → s.substI.lookup v = some (.resolved x)) := by
  refine ⟨fun h => ?_, fun w h => ?_, fun x h => ?_, fun x h => ?_⟩
  · simp [State.get, h]
  · simp [State.get, h, Val.getResolved]
  · simp [State.get, h, Val.getResolved]
  · rcases hl : s.substI.lookup v with _ | val
    · simp [State.get, hl] at h
    · cases val with
      | var w => simp [State.get, hl, Val.getResolved] at h
      | resolved y =>
        simp [State.get, hl, Val.getResolved] at h
        simp [h]

/-- C9 witness: in `getState`, variable 1 is bound to variable 2 (itself
bound to the resolved 5), and `get 1` answers `Err(2)`. -/
theorem C9_state_get_witness :
    getState.substI.lookup 1 = some (.var 2) ∧
    getState.get 1 = .error 2 :=
  ⟨rfl, (C9_state_get Unit Unit getState 1).2.1 2 rfl⟩

/-- C10: when both operands of `Mapping::run` are ground values `a` and `b`,
the goal succeeds (yields the state) iff `a_to_b(a) == b`, and the result
does not depend on `b_to_a` at all. -/
theorem C10_mapping_run
    (checkAdd : List Nat → Mapping → MapState → Nat → List MapState)
    (st : MapState) (x y : Int) (fa fb fb2 : Int → Int) :
    (Mapping.run checkAdd ⟨.val x, .val y, fa, fb⟩ st
      = if fa x = y then [st] else []) ∧
    (Mapping.run checkAdd ⟨.val x, .val y, fa, fb⟩ st
      = Mapping.run checkAdd ⟨.val x, .val y, fa, fb2⟩ st) := by
  constructor <;> simp [Mapping.run, Mapping.evaluate_a]

/-- C7: `Map1::attempt` derives through `a_to_b` when `a` resolves (unifying
`a_to_b(a)` with `b`), derives through `b_to_a` when only `b` resolves
(unifying `b_to_a(b)` with the variable `a`), and when both operands are
unresolved variables it reports `Waiting` on both ids with the state
unchanged — so that `State::watch` files it in the index under both ids and
changes nothing else. -/
theorem C7_map_1_attempt (F : Type)
    (run : Map1 → State Map1 F → Watch (State Map1 F)) (m : Map1)
    (s : State Map1 F) :
    (∀ x, s.resolve_val m.a = .resolved x →
      Map1.attempt run m s
        = .done (State.unify run s (.resolved (m.a_to_b x)) (s.resolve_val m.b))) ∧
    (∀ va y, s.resolve_val m.a = .var va → s.resolve_val m.b = .resolved y →
      Map1.attempt run m s
        = .done (State.unify run s (.resolved (m.b_to_a y)) (.var va))) ∧
    (∀ va vb, s.resolve_val m.a = .var va → s.resolve_val m.b = .var vb →
      Map1.attempt run m s = .waiting s [va, vb] ∧
      State.watch (fun m1 s1 => Map1.attempt run m1 s1) s m
        = some {s with watches := s.watches.add [va, vb] m}) := by
  refine ⟨fun x h => ?_, fun va y ha hb => ?_, fun va vb ha hb => ?_⟩
  · simp [Map1.attempt, h]
  · simp [Map1.attempt, ha, hb]
  · have hw : Map1.attempt run m s = .waiting s [va, vb] := by
      simp [Map1.attempt, ha, hb, Watch.watch, Watch.and]
    exact ⟨hw, by simp [State.watch, hw]⟩

/-- C7 witness: on a fresh state both operands of `map1Ex` are unresolved, so
the attempt waits on ids 0 and 1 and subscribing files it under both. -/
theorem C7_map_1_attempt_witness :
    ((State.new : State Map1 Unit).resolve_val map1Ex.a = Val.var 0) ∧
    ((State.new : State Map1 Unit).resolve_val map1Ex.b = Val.var 1) ∧
    (Map1.attempt map1Run map1Ex State.new
        = .waiting (State.new : State Map1 Unit) [0, 1] ∧
      State.watch (fun m1 s1 => Map1.attempt map1Run m1 s1) State.new map1Ex
        = some {(State.new : State Map1 Unit) with
                  watches := MKMVMap.add (State.new : State Map1 Unit).watches [0, 1] map1Ex}) :=
  ⟨rfl, rfl, (C7_map_1_attempt Unit map1Run map1Ex State.new).2.2 0 1 rfl rfl⟩

/-- C2 counterexample: in `chainState` the substitution maps variable 1 to
`w = Var 2`, yet `unify(Var 1, 2)` succeeds (it re-binds variable 2 after the
single-step resolve) while `unify(w, 2)` fails (variable 2 resolves to 1, and
1 does not unify with 2) — so the two calls do not behave the same. -/
theorem C2_counterexample :
    chainState.substI.lookup 1 = some (.var 2) ∧
    (State.unify unitRun chainState (.var 1) (.resolved 2)).isSome = true ∧
    State.unify unitRun chainState (.var 2) (.resolved 2) = none :=
  ⟨rfl, rfl, rfl⟩

/-- C2 (amended): if the substitution maps `v` to `w` and `w` is its own
one-step resolution (`w` is a resolved value or a still-unbound variable),
then `unify(Var v, x)` behaves exactly as `unify(w, x)`; when `w` is itself a
bound variable the two can differ, because `resolve_val` chases only one
step. -/
theorem C2_var_binding_behaves (W F : Type)
    (run : W → State W F → Watch (State W F)) (s : State W F) (v : Nat)
    (w x : Val Int) (hv : s.substI.lookup v = some w)
    (hw : s.resolve_val w = w) :
    State.unify run s (.var v) x = State.unify run s w x := by
  have h1 : s.resolve_val (.var v) = w := by simp [State.resolve_val, hv]
  simp only [State.unify, h1, hw]

/-- C2 witness: in `chainState`, variable 2 is bound to the resolved value 1,
which resolves to itself, so unifying `Var 2` behaves as unifying that
value. -/
theorem C2_var_binding_behaves_witness :
    chainState.substI.lookup 2 = some (.resolved 1) ∧
    State.unify unitRun chainState (.var 2) (.resolved 1)
      = State.unify unitRun chainState (.resolved 1) (.resolved 1) :=
  ⟨rfl, C2_var_binding_behaves Unit Unit unitRun chainState 2 (.resolved 1)
    (.resolved 1) rfl rfl⟩

/-- In `cycleState` the fueled recursive resolution of variable 2 (and of
variable 3) exhausts any amount of fuel: the chase alternates between the two
forever. -/
theorem cycleState_resolveDeep (fuel : Nat) :
    resolveDeep fuel cycleState (.var 2) = .outOfFuel ∧
    resolveDeep fuel cycleState (.var 3) = .outOfFuel := by
  induction fuel with
  | zero => exact ⟨rfl, rfl⟩
  | succ n ih =>
    constructor
    · have h : resolveDeep (n + 1) cycleState (.var 2)
          = resolveDeep n cycleState (.var 3) := rfl
      rw [h]; exact ih.2
    · have h : resolveDeep (n + 1) cycleState (.var 3)
          = resolveDeep n cycleState (.var 2) := rfl
      rw [h]; exact ih.1

/-- C8: a cyclic substitution is constructible through the public `unify`
operation alone — three successful unifications leave variables 2 and 3 bound
to each other (the third call resolves `Var 1` a single step, to `Var 2`, and
binds 3 to it, closing the chain on itself) — and recursive resolution
(reify) of such a variable never completes for any amount of fuel: the engine
detects no cycle and returns no error. -/
theorem C8_cycle_diverges :
    (((State.unify (emptyRun Unit) State.new (.var 1) (.var 2)).bind
        (fun s1 => State.unify (emptyRun Unit) s1 (.var 2) (.var 3))).bind
        (fun s2 => State.unify (emptyRun Unit) s2 (.var 3) (.var 1)))
      = some cycleState ∧
    (∀ fuel, resolveDeep fuel cycleState (.var 2) = .outOfFuel) ∧
    (∀ fuel, resolveDeep fuel cycleState (.var 3) = .outOfFuel) :=
  ⟨rfl, fun fuel => (cycleState_resolveDeep fuel).1,
    fun fuel => (cycleState_resolveDeep fuel).2⟩

/-- Unifying two already-resolved i32 values succeeds (state unchanged) iff
they are equal — the i32 leaf unifier verdict adopted by the state. -/
theorem unify_ints {W F : Type} (run : W → State W F → Watch (State W F))
    (s : State W F) (x y : Int) :
    State.unify run s (.resolved x) (.resolved y)
      = if x = y then some s else none := by
  have h : State.unify run s (.resolved x) (.resolved y)
      = s.applyUnified (i32_unify_with x y) := rfl
  rw [h]
  unfold i32_unify_with
  split <;> simp [State.applyUnified]

/-- The empty-sequence case of `unify_resolved`: success with the state
unchanged. -/
theorem unify_resolved_nil {W F : Type} (run : W → State W F → Watch (State W F))
    (s : State W F) : unify_resolved run s [] [] = some s := rfl

/-- The cons case of `unify_resolved`: unify the heads, then continue with
the tails from the resulting state (so a head failure fails the whole
sequence, and a later length mismatch also fails). -/
theorem unify_resolved_cons {W F : Type} (run : W → State W F → Watch (State W F))
    (s : State W F) (x y : Val Int) (a b : List (Val Int)) :
    unify_resolved run s (x :: a) (y :: b)
      = (State.unify run s x y).bind (fun s1 => unify_resolved run s1 a b) := by
  by_cases h : a.length = b.length
  · simp [unify_resolved, h, List.foldlM_cons]
  · cases hxy : State.unify run s x y with
    | none => simp [unify_resolved, h, hxy]
    | some s1 => simp [unify_resolved, h, hxy]

/-- Element-wise characterization on ground sequences: unifying two
equal-length sequences of resolved i32s succeeds — with the state unchanged —
iff the sequences are equal. -/
theorem unify_resolved_ground {W F : Type}
    (run : W → State W F → Watch (State W F)) (xs : List Int) :
    ∀ (ys : List Int) (s : State W F), xs.length = ys.length →
      unify_resolved run s (xs.map .resolved) (ys.map .resolved)
        = if xs = ys then some s else none := by
  induction xs with
  | nil =>
    intro ys s h
    cases ys with
    | nil => simp [unify_resolved_nil]
    | cons y ys => simp at h
  | cons x xs ih =>
    intro ys s h
    cases ys with
    | nil => simp at h
    | cons y ys =>
      simp only [List.map_cons]
      rw [unify_resolved_cons, unify_ints]
      by_cases hxy : x = y
      · subst hxy
        rw [if_pos rfl, Option.some_bind, ih ys s (by simpa using h)]
        simp [List.cons.injEq]
      · simp [hxy]

/-- C1: the sequence leaf unifier `unify_resolved` fails outright when the
lengths differ; on equal lengths it is the left-to-right fold of `unify`
over the paired children, so it succeeds iff element-wise unification
succeeds and the first child failure fails the whole sequence.  The stub
sequence unifier `vec_unify_with`, which reports `Success` on equal lengths
without recursing, does not satisfy this: on `[1]` versus `[2]` it answers
`Success` where the recursive unifier fails. -/
theorem C1_seq_unify (W F : Type) (run : W → State W F → Watch (State W F))
    (s : State W F) :
    (∀ a b : List (Val Int), a.length ≠ b.length →
      unify_resolved run s a b = none) ∧
    (unify_resolved run s [] [] = some s) ∧
    (∀ (x y : Val Int) (a b : List (Val Int)),
      unify_resolved run s (x :: a) (y :: b)
        = (State.unify run s x y).bind (fun s1 => unify_resolved run s1 a b)) ∧
    (∀ (x y : Val Int) (a b : List (Val Int)), State.unify run s x y = none →
      unify_resolved run s (x :: a) (y :: b) = none) ∧
    (∀ xs ys : List Int, xs.length = ys.length →
      unify_resolved run s (xs.map .resolved) (ys.map .resolved)
        = if xs = ys then some s else none) ∧
    ((vec_unify_with (W := W) (F := F) [.resolved 1] [.resolved 2]
        = Unified.success) ∧
      unify_resolved run s [.resolved 1] [.resolved 2] = none) := by
  refine ⟨fun a b h => by simp [unify_resolved, h],
    unify_resolved_nil run s,
    fun x y a b => unify_resolved_cons run s x y a b,
    fun x y a b h => by rw [unify_resolved_cons, h]; rfl,
    fun xs ys h => unify_resolved_ground run xs ys s h,
    rfl, ?_⟩
  rw [unify_resolved_cons, unify_ints]
  simp [show (1 : Int) ≠ 2 by decide]

/-- C1 witness: sequences of lengths 1 and 0 fail to unify. -/
theorem C1_seq_unify_witness :
    ([Val.resolved 1] : List (Val Int)).length ≠ ([] : List (Val Int)).length ∧
    unify_resolved unitRun State.new [Val.resolved 1] [] = none :=
  ⟨by decide,
    (C1_seq_unify Unit Unit unitRun State.new).1 [Val.resolved 1] [] (by decide)⟩

/-- Unfolding of `iter_forks` on an empty fork queue: the state itself is
yielded exactly once. -/
theorem iter_forks_nil {W F : Type} (runF : F → State W F → List (State W F))
    (n : Nat) (s : State W F) (h : s.forks = []) :
    iter_forks runF (n + 1) s = some [s] := by
  rw [iter_forks, h]

/-- Unfolding of `iter_forks` on a non-empty fork queue: pop the head fork,
run it on the state carrying the remaining queue, and flat-map the recursion
over its output. -/
theorem iter_forks_cons {W F : Type} (runF : F → State W F → List (State W F))
    (n : Nat) (s : State W F) (f : F) (rest : List F)
    (h : s.forks = f :: rest) :
    iter_forks runF (n + 1) s
      = ((runF f {s with forks := rest}).mapM (iter_forks runF n)).map
          List.flatten := by
  rw [iter_forks, h]

/-- C4: draining pops the head fork (FIFO — `fork` enqueues at the back),
invokes it on the state carrying the remaining queue, and recurses on each
produced state preserving the fork's output order (their drains are
concatenated in order); a state whose fork queue is empty yields exactly
itself, once. -/
theorem C4_drain (W F : Type) (runF : F → State W F → List (State W F))
    (n : Nat) (s : State W F) (f0 : F) :
    (s.forks = [] → iter_forks runF (n + 1) s = some [s]) ∧
    (∀ f rest ls, s.forks = f :: rest →
      (runF f {s with forks := rest}).mapM (iter_forks runF n) = some ls →
      iter_forks runF (n + 1) s = some ls.flatten) ∧
    (∀ f rest s1 s2, s.forks = f :: rest →
      runF f {s with forks := rest} = [s1, s2] →
      s1.forks = [] → s2.forks = [] →
      iter_forks runF (n + 2) s = some [s1, s2]) ∧
    (State.fork s f0 = some {s with forks := s.forks ++ [f0]}) := by
  refine ⟨fun h => iter_forks_nil runF n s h, fun f rest ls hf hmap => ?_,
    fun f rest s1 s2 hf hrun h1 h2 => ?_, rfl⟩
  · rw [iter_forks_cons runF n s f rest hf, hmap]; rfl
  · have e1 := iter_forks_nil runF n s1 h1
    have e2 := iter_forks_nil runF n s2 h2
    rw [iter_forks_cons runF (n + 1) s f rest hf, hrun]
    have hm : ([s1, s2].mapM (iter_forks runF (n + 1))) = some [[s1], [s2]] := by
      simp only [List.mapM_cons, List.mapM_nil, e1, e2]
      rfl
    rw [hm]
    rfl

/-- C4 witness: a state with one pending fork whose single output is a
terminal state drains to exactly that state. -/
theorem C4_drain_witness :
    forkState.forks = () :: [] ∧
    (constRunF () {forkState with forks := []}).mapM (iter_forks constRunF 1)
      = some [[(State.new : State Unit Unit)]] ∧
    iter_forks constRunF 2 forkState
      = some (List.flatten [[(State.new : State Unit Unit)]]) :=
  ⟨rfl, rfl,
    (C4_drain Unit Unit constRunF 1 forkState ()).2.1 () []
      [[(State.new : State Unit Unit)]] rfl rfl⟩

/-- Applying `Either(g1, g2)` defers a fork and changes nothing else: the
parent state is returned with the either-fork appended at the back of the
queue, and neither branch has been attempted. -/
theorem apply_either (g1 g2 : GoalG) (s : State Empty ForkF) :
    GoalG.apply (.either g1 g2) s
      = some {s with forks := s.forks ++ [ForkF.eitherF g1 g2]} := by
  simp [GoalG.apply, State.fork]

/-- `mapM` of an `Option`-valued function over the empty list. -/
theorem mapM_opt_nil {α β : Type} (f : α → Option β) :
    List.mapM f ([] : List α) = some [] := rfl

/-- `mapM` of an `Option`-valued function over a singleton. -/
theorem mapM_opt_singleton {α β : Type} (f : α → Option β) (a : α) :
    List.mapM f [a] = (f a).map (fun b => [b]) := by
  cases h : f a <;> simp [List.mapM, List.mapM.loop, h]

/-- The either-fork applies both branches to the same parent state and
chains their outputs, first branch first. -/
theorem runFork_either (g1 g2 : GoalG) (s : State Empty ForkF) :
    runFork (.eitherF g1 g2) s
      = (g1.apply s).toList ++ (g2.apply s).toList := rfl

/-- Querying `either(g1, g2)` produces the concatenation of the two branch
queries, in order (fuel-indexed: one step of drain fuel spent popping the
either-fork). -/
theorem query_either_eq (fuel : Nat) (g1 g2 : GoalG) (v : Nat) :
    query (fuel + 1) (.either g1 g2) v
      = (query fuel g1 v).bind
          (fun l1 => (query fuel g2 v).map (fun l2 => l1 ++ l2)) := by
  have happ : GoalG.apply (.either g1 g2) State.new
      = some {(State.new : State Empty ForkF) with forks := [ForkF.eitherF g1 g2]} := by
    rw [apply_either]
    rfl
  have hstep : iter_forks runFork (fuel + 1)
      ({(State.new : State Empty ForkF) with forks := [ForkF.eitherF g1 g2]})
      = (((g1.apply State.new).toList ++ (g2.apply State.new).toList).mapM
          (iter_forks runFork fuel)).map List.flatten := by
    rw [iter_forks_cons runFork fuel _ (ForkF.eitherF g1 g2) [] rfl]
    rfl
  simp only [query, happ, hstep]
  rw [List.mapM_append]
  cases ha : GoalG.apply g1 State.new with
  | none =>
    cases hb : GoalG.apply g2 State.new with
    | none =>
      simp only [Option.toList]
      rw [mapM_opt_nil]
      rfl
    | some s2 =>
      simp only [Option.toList]
      rw [mapM_opt_nil, mapM_opt_singleton]
      cases hc : iter_forks runFork fuel s2 with
      | none => simp
      | some l2 => simp
  | some s1 =>
    cases hb : GoalG.apply g2 State.new with
    | none =>
      simp only [Option.toList]
      rw [mapM_opt_singleton, mapM_opt_nil]
      cases hc : iter_forks runFork fuel s1 with
      | none => simp
      | some l1 => simp
    | some s2 =>
      simp only [Option.toList]
      rw [mapM_opt_singleton, mapM_opt_singleton]
      cases hc : iter_forks runFork fuel s1 with
      | none => simp
      | some l1 =>
        cases hd : iter_forks runFork fuel s2 with
        | none => simp [hd]
        | some l2 => simp [hd, List.filterMap_append]

/-- C5: `either(g1, g2).query(v)` yields exactly the concatenation of
`g1.query(v)` followed by `g2.query(v)`, order included; the disjunction is
deferred as a fork (the parent state is returned unchanged but for the
enqueued fork), and when the fork later runs, both branches are applied to
that same parent state. -/
theorem C5_either_query (fuel : Nat) (g1 g2 : GoalG) (v : Nat) :
    (∀ s : State Empty ForkF, GoalG.apply (.either g1 g2) s
      = some {s with forks := s.forks ++ [ForkF.eitherF g1 g2]}) ∧
    (∀ s : State Empty ForkF, runFork (.eitherF g1 g2) s
      = (g1.apply s).toList ++ (g2.apply s).toList) ∧
    (query (fuel + 1) (.either g1 g2) v
      = (query fuel g1 v).bind
          (fun l1 => (query fuel g2 v).map (fun l2 => l1 ++ l2))) :=
  ⟨fun s => apply_either g1 g2 s, fun s => runFork_either g1 g2 s,
    query_either_eq fuel g1 g2 v⟩

/-- One-step resolution of an already-resolved value is the identity. -/
theorem resolve_val_resolved {W F : Type} (s : State W F) (x : Int) :
    s.resolve_val (.resolved x) = .resolved x := rfl

/-- C3: when a successful `unify(a, b)` newly binds the variable `v`, it
equals re-running — exactly once each, via the `try_fold` of `State::watch` —
precisely the watches extracted for `v`: every extracted watch mentioned `v`,
their watch-ids are pairwise distinct, the remaining index holds no entry
mentioning `v` nor any extracted watch-id (extract unlinked them from all
their keys), and if any re-run watch concludes failure when reached, the
whole unify fails. -/
theorem C3_watch_reawaken (W F : Type)
    (run : W → State W F → Watch (State W F)) (s : State W F) (v : Nat)
    (x : Int) (hunbound : s.substI.lookup v = none)
    (hnodup : (s.watches.entries.map (fun e => e.1)).Nodup) :
    (State.unify run s (.var v) (.resolved x)
      = ((extractedEntries s v).map (fun e => e.2.2)).foldlM
          (State.watch run) (afterBind s v x)) ∧
    (∀ e ∈ extractedEntries s v, v ∈ e.2.1) ∧
    (((extractedEntries s v).map (fun e => e.1)).Nodup) ∧
    (∀ e ∈ (afterBind s v x).watches.entries,
      v ∉ e.2.1 ∧ e.1 ∉ (extractedEntries s v).map (fun e => e.1)) ∧
    (∀ p w q, (extractedEntries s v).map (fun e => e.2.2) = p ++ w :: q →
      ∀ st, p.foldlM (State.watch run) (afterBind s v x) = some st →
        run w st = .done none →
        State.unify run s (.var v) (.resolved x) = none) := by
  have hres : s.resolve_val (.var v) = .var v := by
    simp [State.resolve_val, hunbound]
  have h1 : State.unify run s (.var v) (.resolved x)
      = ((extractedEntries s v).map (fun e => e.2.2)).foldlM
          (State.watch run) (afterBind s v x) := by
    have hu : State.unify run s (.var v) (.resolved x)
        = s.bindVar run v (.resolved x) := by
      simp only [State.unify, hres, resolve_val_resolved]
    rw [hu]
    obtain ⟨si, sv, ⟨ni, ents⟩, fks⟩ := s
    simp only [State.bindVar, MKMVMap.extract, extractedEntries, afterBind,
      remainingEntries]
    cases hh : (ents.filter (fun e => e.2.1.contains v)).isEmpty with
    | true =>
      have hnilf : ents.filter (fun e => e.2.1.contains v) = [] :=
        List.isEmpty_iff.mp hh
      have hcnone : ∀ e ∈ ents, ¬ (e.2.1.contains v = true) := by
        intro e he hc
        have hmm : e ∈ ents.filter (fun e => e.2.1.contains v) :=
          List.mem_filter.mpr ⟨he, hc⟩
        rw [hnilf] at hmm
        exact (List.not_mem_nil e) hmm
      have hself : ents.filter (fun e => !e.2.1.contains v) = ents := by
        apply List.filter_eq_self.mpr
        intro e he
        have hf := hcnone e he
        simp only [Bool.not_eq_true] at hf
        rw [hf]
        rfl
      rw [if_pos rfl, hnilf, hself]
      rfl
    | false =>
      rw [if_neg (by simp)]
  refine ⟨h1, fun e he => ?_, ?_, fun e he => ?_, fun p w q hsplit st hfold hrun => ?_⟩
  · simp only [extractedEntries] at he
    have hm := List.mem_filter.mp he
    simpa using hm.2
  · exact hnodup.sublist ((List.filter_sublist _).map _)
  · simp only [afterBind, remainingEntries] at he
    have hmem := List.mem_filter.mp he
    have hfalse : e.2.1.contains v = false := by
      have := hmem.2
      simp only [Bool.not_eq_true'] at this
      exact this
    have hnc : ¬ (e.2.1.contains v = true) := by
      rw [hfalse]
      simp
    constructor
    · intro hv
      exact hnc (by simpa using hv)
    · intro hin
      simp only [extractedEntries] at hin
      obtain ⟨e2, he2, heq⟩ := List.mem_map.mp hin
      have he2m := List.mem_filter.mp he2
      have heq2 : e2 = e :=
        List.inj_on_of_nodup_map hnodup he2m.1 hmem.1 heq
      rw [heq2] at he2m
      exact hnc he2m.2
  · rw [h1, hsplit, List.foldlM_append, hfold]
    have hw : State.watch run st w = none := by
      simp only [State.watch, hrun]
    show List.foldlM (State.watch run) st (w :: q) = none
    rw [List.foldlM_cons, hw]
    rfl

/-- C3 witness: in `watchState`, binding the unbound variable 5 extracts the
watch filed under 5 and 7 and re-runs it once from the state carrying the
pruned index. -/
theorem C3_watch_reawaken_witness :
    watchState.substI.lookup 5 = none ∧
    (watchState.watches.entries.map (fun e => e.1)).Nodup ∧
    State.unify unitRun watchState (.var 5) (.resolved 3)
      = ((extractedEntries watchState 5).map (fun e => e.2.2)).foldlM
          (State.watch unitRun) (afterBind watchState 5 3) :=
  ⟨rfl, by decide,
    (C3_watch_reawaken Unit Unit unitRun watchState 5 3 rfl (by decide)).1⟩

/-- Applying one `member` branch goal `unify(element, item)` with a ground
element and the unbound out-variable 0 binds 0 to the element. -/
theorem apply_unify_ground (a : Int) :
    GoalG.apply (.unify (.resolved a) (.var 0)) State.new = some (boundState a) := by
  simp only [GoalG.apply]
  rfl

/-- Reifying the out-variable 0 in one terminal branch state recovers the
element. -/
theorem reify_boundState (a : Int) : reify (boundState a) 0 = some a := rfl

/-- A `member` branch state is terminal: it drains to itself. -/
theorem iter_forks_boundState (a : Int) :
    iter_forks runFork 1 (boundState a) = some [boundState a] :=
  iter_forks_nil runFork 0 (boundState a) rfl

/-- Querying the `Goal::any` that `member` resolves to, over a ground
collection, yields exactly one answer per element, in declared order. -/
theorem query_member_any (xs : List Int) :
    query 2 (GoalG.any ((xs.map Val.resolved).map (fun a => GoalG.unify a (.var 0)))) 0
      = some xs := by
  have hmm : (xs.map Val.resolved).map (fun a => GoalG.unify a (.var 0))
      = xs.map (fun a => GoalG.unify (.resolved a) (.var 0)) := by
    rw [List.map_map]
    rfl
  rw [hmm]
  have happ : GoalG.apply
        (.any (xs.map (fun a => GoalG.unify (.resolved a) (.var 0)))) State.new
      = some {(State.new : State Empty ForkF) with
          forks := [ForkF.anyF (xs.map (fun a => GoalG.unify (.resolved a) (.var 0)))]} := by
    simp only [GoalG.apply]
    rfl
  simp only [query, happ]
  rw [iter_forks_cons runFork 1 _
    (ForkF.anyF (xs.map (fun a => GoalG.unify (.resolved a) (.var 0)))) [] rfl]
  have hflat : ∀ zs : List Int,
      (zs.map (fun a => GoalG.unify (.resolved a) (.var 0))).flatMap
          (fun g => (g.apply State.new).toList)
        = zs.map boundState := by
    intro zs
    induction zs with
    | nil => rfl
    | cons a as ih => simp [apply_unify_ground, ih]
  have hrun : runFork
        (.anyF (xs.map (fun a => GoalG.unify (.resolved a) (.var 0))))
        ({({(State.new : State Empty ForkF) with
            forks := [ForkF.anyF (xs.map (fun a => GoalG.unify (.resolved a) (.var 0)))]} :
              State Empty ForkF) with forks := ([] : List ForkF)})
      = xs.map boundState := by
    have hbase : runFork
          (.anyF (xs.map (fun a => GoalG.unify (.resolved a) (.var 0))))
          ({({(State.new : State Empty ForkF) with
              forks := [ForkF.anyF (xs.map (fun a => GoalG.unify (.resolved a) (.var 0)))]} :
                State Empty ForkF) with forks := ([] : List ForkF)})
        = (xs.map (fun a => GoalG.unify (.resolved a) (.var 0))).flatMap
            (fun g => (g.apply State.new).toList) := rfl
    rw [hbase, hflat]
  rw [hrun]
  have hmapM : ∀ zs : List Int,
      (zs.map boundState).mapM (iter_forks runFork 1)
        = some (zs.map (fun a => [boundState a])) := by
    intro zs
    induction zs with
    | nil => rfl
    | cons a as ih =>
      rw [List.map_cons, List.mapM_cons, iter_forks_boundState, ih]
      rfl
  rw [hmapM]
  have hflatten : ∀ zs : List Int,
      (zs.map (fun a => [boundState a])).flatten = zs.map boundState := by
    intro zs
    induction zs with
    | nil => rfl
    | cons a as ih => simp [ih]
  have hfm : ∀ zs : List Int,
      (zs.map boundState).filterMap (fun st => reify st 0) = zs := by
    intro zs
    induction zs with
    | nil => rfl
    | cons a as ih => simp [List.filterMap_cons, reify_boundState, ih]
  simp [hflatten xs, hfm xs]

/-- C6: `member(item, collection)` suspends (reports the collection's
variable to wait on) while the collection is an unbound variable; once the
collection resolves to a sequence of n elements — directly or through its
binding — the attempt resolves to the `Goal::any` of the n goals
`unify(element, item)` in declared order, and querying that disjunction with
an unbound out-variable yields exactly n answers preserving the element
order. -/
theorem C6_member (W F : Type) (item : Val Int) (c : Nat) (s : State W F)
    (xs : List (Val Int)) (ys : List Int) :
    (s.substV.lookup c = none →
      memberAttempt item (.var c) s = .error [c]) ∧
    (s.substV.lookup c = some (.resolved xs) →
      memberAttempt item (.var c) s
        = .ok (.any (xs.map (fun a => .unify a item)))) ∧
    (memberAttempt item (.resolved xs) s
      = .ok (.any (xs.map (fun a => .unify a item)))) ∧
    (query 2 (GoalG.any ((ys.map Val.resolved).map (fun a => GoalG.unify a (.var 0)))) 0
      = some ys) := by
  refine ⟨fun h => ?_, fun h => ?_, ?_, query_member_any ys⟩
  · simp [memberAttempt, resolve_1, State.resolve_val_vec, h, Val.getResolved]
  · simp [memberAttempt, resolve_1, State.resolve_val_vec, h, Val.getResolved]
  · simp [memberAttempt, resolve_1, State.resolve_val_vec, Val.getResolved]

/-- C6 witness: on a fresh state `member` waits on an unbound collection
variable, and a ground three-element collection yields its three elements in
order. -/
theorem C6_member_witness :
    (State.new : State Unit Unit).substV.lookup 9 = none ∧
    memberAttempt (.var 0) (.var 9) (State.new : State Unit Unit) = .error [9] ∧
    query 2 (GoalG.any ((([1, 2, 3] : List Int).map Val.resolved).map
        (fun a => GoalG.unify a (.var 0)))) 0
      = some [1, 2, 3] :=
  ⟨rfl,
    (C6_member Unit Unit (.var 0) 9 State.new [] [1, 2, 3]).1 rfl,
    (C6_member Unit Unit (.var 0) 9 State.new [] [1, 2, 3]).2.2.2⟩

end Canrun
